import Mathlib

/-!
Verification of the Nodal `PostgresAdapter` (src/core/required/db/adapters/postgres8.js).

The adapter's asynchronous, callback-based control flow is shallowly embedded as
deterministic Lean functions that produce a *trace* of observable events
(pool connect, connection release, client queries, callback invocations).
Outcomes of the external collaborators (the pg pool's `connect`, the client's
`query`) are supplied by an environment: `connectErr` for the pool connection
attempt and `exec : Nat → Except Error Result` giving the outcome of the n-th
`client.query` call issued on the acquired connection.

The ORDER BY fragment builder `generateOrderByClause` is a pure function in the
source except that it assigns `escapedColumns` onto each supplied order spec;
we model that mutation by returning the updated spec list alongside the
fragment string.
-/

namespace Nodal

abbrev Error := String
abbrev Result := String

/-- A SQL statement as passed to `client.query`: text plus optional parameter
list (`none` models a JavaScript `undefined` parameter slot). -/
abbrev Stmt := String × Option (List String)

/-- Observable events of one adapter operation, in order of occurrence. -/
inductive Ev where
  | connect : Ev
  | release : Ev
  | query : String → Option (List String) → Ev
  | cbErr : Error → Ev
  | cbOk : List Result → Ev
  | cbOkOne : Result → Ev
  | cbTx : Ev
deriving DecidableEq, Repr

/-- Is this event an invocation of the caller's callback? -/
def isCb : Ev → Bool
  | .cbErr _ => true
  | .cbOk _ => true
  | .cbOkOne _ => true
  | .cbTx => true
  | _ => false

/-- Is this event a `client.query` call? -/
def isQuery : Ev → Bool
  | .query _ _ => true
  | _ => false

@[simp]
theorem isCb_connect : isCb Ev.connect = false := rfl

@[simp]
theorem isCb_release : isCb Ev.release = false := rfl

@[simp]
theorem isCb_query (s : String) (p : Option (List String)) :
    isCb (Ev.query s p) = false := rfl

@[simp]
theorem isCb_cbErr (e : Error) : isCb (Ev.cbErr e) = true := rfl

@[simp]
theorem isCb_cbOk (rs : List Result) : isCb (Ev.cbOk rs) = true := rfl

@[simp]
theorem isCb_cbOkOne (r : Result) : isCb (Ev.cbOkOne r) = true := rfl

@[simp]
theorem isCb_cbTx : isCb Ev.cbTx = true := rfl

@[simp]
theorem isQuery_query (s : String) (p : Option (List String)) :
    isQuery (Ev.query s p) = true := rfl

/-- Number of `release` (the pool's `complete()`) events in a trace. -/
def releaseCount (t : List Ev) : Nat := t.countP (fun e => e == Ev.release)

/-- `true` iff, scanning the trace in order, a `release` occurs strictly
before the first callback invocation (and a `release` does occur). -/
def releasedBeforeCb : List Ev → Bool
  | [] => false
  | e :: t =>
    if e == Ev.release then true else if isCb e then false else releasedBeforeCb t

/-- Environment: the pool's capacity answer, the outcome of the pool
connection attempt, and the outcome of each successive `client.query` call. -/
structure Env where
  poolFull : Bool
  connectErr : Option Error
  exec : Nat → Except Error Result

/-- Build an `exec` oracle from a finite script of responses (calls past the
end of the script succeed with an empty result). -/
def execOf (l : List (Except Error Result)) : Nat → Except Error Result :=
  fun n => l.getD n (Except.ok "")

/-- Callback events are emitted only when the caller supplied a real function;
a non-callable callback was replaced by a no-op (`transaction` lines 109-111). -/
def cbEv (b : Bool) (e : Ev) : List Ev := if b then [e] else []

/-- Sequential execution of tasks by `async.series` (postgres8.js line 148):
run each `client.query` in order, stopping at the first error; return the
events, the updated call counter, and either the first error or all results
in order. -/
def runSeries (exec : Nat → Except Error Result) :
    List Stmt → Nat → List Ev × Nat × Except Error (List Result)
  | [], n => ([], n, Except.ok [])
  | (s, p) :: rest, n =>
    match exec n with
    | .error e => ([Ev.query s p], n + 1, Except.error e)
    | .ok r =>
      match runSeries exec rest (n + 1) with
      | (evs, n2, .error e) => (Ev.query s p :: evs, n2, Except.error e)
      | (evs, n2, .ok rs) => (Ev.query s p :: evs, n2, Except.ok (r :: rs))

/-- Greedy left-to-right splitting of a character list on a (non-empty)
separator, the semantics of JavaScript `String.prototype.split` with a string
separator. The fuel argument (instantiated with more than the input length)
makes the recursion structural. -/
def jsSplitFuel (sep : List Char) : Nat → List Char → List Char → List (List Char)
  | 0, _, acc => [acc.reverse]
  | _ + 1, [], acc => [acc.reverse]
  | fuel + 1, c :: rest, acc =>
    if sep.isPrefixOf (c :: rest) then
      acc.reverse :: jsSplitFuel sep fuel ((c :: rest).drop sep.length) []
    else
      jsSplitFuel sep fuel rest (c :: acc)

/-- JavaScript `s.split(sep)` for a non-empty string separator. -/
def jsSplit (s sep : String) : List String :=
  (jsSplitFuel sep.data (s.data.length + 1) s.data []).map List.asString

/-- JavaScript `arr.join(sep)`. -/
def jsJoin (sep : String) : List String → String
  | [] => ""
  | [x] => x
  | x :: y :: rest => x ++ sep ++ jsJoin sep (y :: rest)

/-- A string of statements is split on `;`, empty fragments discarded, each
fragment becoming a statement with no parameters (postgres8.js lines 101-107). -/
def splitStatements (s : String) : List Stmt :=
  ((jsSplit s ";").filter (fun v => v != "")).map (fun v => (v, none))

/-- The argument to `transaction`: either a prepared array of statements or a
single delimited string. -/
inductive TxInput where
  | arr : List Stmt → TxInput
  | str : String → TxInput

/-- The JavaScript `.length` of the `transaction` argument (array length or
string length), checked before the string is split (line 97). -/
def txLength : TxInput → Nat
  | .arr l => l.length
  | .str s => s.length

/-- The prepared statement list actually executed (after string splitting). -/
def txPrepared : TxInput → List Stmt
  | .arr l => l
  | .str s => splitStatements s

/-- The tail of `transaction`'s flow after `async.series` finishes
(postgres8.js lines 148-194): on error, issue `ROLLBACK` and report the
rollback error if rollback fails, else the original error, calling the
callback *before* `complete()`; on success, issue `COMMIT` and report the
commit error or the collected results, calling `complete()` *before* the
callback. `n` is the number of `client.query` calls already made. -/
def txnFinish (env : Env) (cbIsFn : Bool) (n : Nat) :
    Except Error (List Result) → List Ev
  | .error txnErr =>
    Ev.query "ROLLBACK" none ::
      (match env.exec n with
       | .error e => cbEv cbIsFn (Ev.cbErr e) ++ [Ev.release]
       | .ok _ => cbEv cbIsFn (Ev.cbErr txnErr) ++ [Ev.release])
  | .ok results =>
    Ev.query "COMMIT" none ::
      (match env.exec n with
       | .error e => Ev.release :: cbEv cbIsFn (Ev.cbErr e)
       | .ok _ => Ev.release :: cbEv cbIsFn (Ev.cbOk results))

/-- `PostgresAdapter#transaction(preparedArray, callback)` (postgres8.js
lines 95-198). Throws (`Except.error`) when the argument has length 0;
substitutes a no-op for a non-callable callback; answers `Pool is full` via
the callback when the pool is at capacity without connecting; otherwise
connects, runs `BEGIN` followed by the statements in order via
`async.series`, then commits or rolls back, releasing the connection exactly
once. The returned list is the event trace of the asynchronous run. -/
def transaction (env : Env) (input : TxInput) (cbIsFn : Bool) :
    Except Error (List Ev) :=
  if txLength input = 0 then
    Except.error "Must give valid array of statements (with or without parameters)"
  else if env.poolFull then
    Except.ok (cbEv cbIsFn (Ev.cbErr "Pool is full"))
  else
    Except.ok (Ev.connect ::
      match env.connectErr with
      | some e => cbEv cbIsFn (Ev.cbErr e) ++ [Ev.release]
      | none =>
        match runSeries env.exec (("BEGIN", none) :: txPrepared input) 0 with
        | (evs, n, res) => evs ++ txnFinish env cbIsFn n res)

/-- Modelled from the spec: the base adapter's `queryClient` (the
collaborator's statement-execution-on-connection capability; its code,
`postgres.js`, is not under src/) runs the given statement on the acquired
connection and invokes its completion callback exactly once with the
statement's outcome. -/
def queryClient (exec : Nat → Except Error Result) (q : String)
    (params : List String) : List Ev × Except Error Result :=
  ([Ev.query q (some params)], exec 0)

/-- Modelled from the spec: the base adapter's `beginClient` (the
collaborator's begin-signal-on-connection capability; its code is not under
src/) issues the backend's begin-transaction signal on the connection and
invokes its completion callback exactly once with the outcome. -/
def beginClient (exec : Nat → Except Error Result) :
    List Ev × Except Error Result :=
  ([Ev.query "BEGIN" none], exec 0)

/-- `PostgresAdapter#query(query, params, callback)` (postgres8.js lines
55-93). The three boolean flags model the synchronous validations: fewer
than 3 arguments, `params` not an array, callback not a function — each
throws (`Except.error`). Then pool-full answers via the callback without
connecting; otherwise connect, run the statement via `queryClient`, and
release before invoking the callback with the outcome. -/
def query (env : Env) (threeArgs paramsIsArray cbIsFn : Bool) (q : String)
    (params : List String) : Except Error (List Ev) :=
  if threeArgs = false then Except.error ".query requires 3 arguments"
  else if paramsIsArray = false then Except.error "params must be a valid array"
  else if cbIsFn = false then Except.error "Callback must be a function"
  else if env.poolFull then Except.ok [Ev.cbErr "Pool is full"]
  else
    Except.ok (Ev.connect ::
      match env.connectErr with
      | some e => [Ev.release, Ev.cbErr e]
      | none =>
        (queryClient env.exec q params).1 ++
          match (queryClient env.exec q params).2 with
          | .error e => [Ev.release, Ev.cbErr e]
          | .ok r => [Ev.release, Ev.cbOkOne r])

/-- `PostgresAdapter#createTransaction(callback)` (postgres8.js lines 28-53).
Pool-full answers via the callback without connecting; a connection error
releases and reports; a begin failure releases and reports; on success the
callback receives a Transaction handle bound to the still-held connection
(no release here — the handle owns it). -/
def createTransaction (env : Env) : List Ev :=
  if env.poolFull then [Ev.cbErr "Pool is full"]
  else
    Ev.connect ::
      match env.connectErr with
      | some e => [Ev.release, Ev.cbErr e]
      | none =>
        (beginClient env.exec).1 ++
          match (beginClient env.exec).2 with
          | .error e => [Ev.release, Ev.cbErr e]
          | .ok _ => [Ev.cbTx]

/-- Modelled from the spec: the base adapter's `escapeField` (the
identifier-escaping capability; its code is not under src/) wraps an
identifier in double quotes, as in the spec's examples
(`"users"."name"`). -/
def escapeField (s : String) : String := "\"" ++ s ++ "\""

/-- A join descriptor as read by `generateOrderByClause`: only the
`joinAlias` field is consulted by the source. -/
structure Join where
  joinAlias : String
deriving DecidableEq, Repr

/-- An order spec: column references, a direction keyword, an optional
transformation over the resolved column expressions, and the
`escapedColumns` property which the source *assigns onto the spec object*
(`none` models a spec on which it has never been set). -/
structure OrderSpec where
  columnNames : List String
  direction : String
  transformation : Option (List String → String)
  escapedColumns : Option (List String)

/-- The `joinArray.every(joinObj => { join = joinObj.find(...); return !join })`
loop (postgres8.js lines 216-219): search the groups in order and within each
group take the first entry whose `joinAlias` equals the chain; the first
match wins. -/
def findJoin (groups : List (List Join)) (chain : String) : Option Join :=
  match groups with
  | [] => none
  | g :: rest =>
    match g.find? (fun j => j.joinAlias == chain) with
    | some j => some j
    | none => findJoin rest chain

/-- Resolution of one column reference (postgres8.js lines 210-227): a
reference without `__` is qualified with the base table; otherwise, when a
join array was supplied, the trailing segment is the column name and the
rest the alias chain, resolved via `findJoin` with a fallback to the base
table qualifying the *original full reference*; with no join array the
reference resolves to `none` (JavaScript `null`). -/
def resolveColumn (table : String) (joinArray : Option (List (List Join)))
    (columnName : String) : Option String :=
  let comps := jsSplit columnName "__"
  if comps.length = 1 then
    some (escapeField table ++ "." ++ escapeField columnName)
  else
    match joinArray with
    | some groups =>
      match findJoin groups (jsJoin "__" comps.dropLast) with
      | some j =>
        some (escapeField j.joinAlias ++ "." ++ escapeField (comps.getLastD ""))
      | none => some (escapeField table ++ "." ++ escapeField columnName)
    | none => none

/-- The resolved-and-filtered column list of one spec
(`v.columnNames.map(...).filter(c => !!c)`, postgres8.js lines 209-230):
`null` results and empty strings are dropped. -/
def escapeColumns (table : String) (joinArray : Option (List (List Join)))
    (v : OrderSpec) : List String :=
  ((v.columnNames.map (resolveColumn table joinArray)).filterMap id).filter
    (fun c => c != "")

/-- The mutation `v.escapedColumns = ...` performed on every supplied order
spec (postgres8.js line 209). -/
def setEscaped (table : String) (joinArray : Option (List (List Join)))
    (v : OrderSpec) : OrderSpec :=
  { columnNames := v.columnNames, direction := v.direction,
    transformation := v.transformation,
    escapedColumns := some (escapeColumns table joinArray v) }

/-- The specs surviving the `filter(v => v.escapedColumns.length)` step
(postgres8.js lines 232-234). -/
def survivingSpecs (table : String) (joinArray : Option (List (List Join)))
    (orderByArray : List OrderSpec) : List OrderSpec :=
  (orderByArray.map (setEscaped table joinArray)).filter
    (fun v => (v.escapedColumns.getD []).length != 0)

/-- One ORDER BY term (postgres8.js line 237):
`(v.transformation || (v => v)).apply(null, v.escapedColumns)` followed by
the direction; the default transformation returns its first argument. -/
def orderTerm (v : OrderSpec) : String :=
  (v.transformation.getD (fun cols => cols.headD "")) (v.escapedColumns.getD [])
    ++ " " ++ v.direction

/-- `PostgresAdapter#generateOrderByClause(table, orderByArray, groupByArray,
joinArray)` (postgres8.js lines 207-240). Returns the fragment string —
`''` when no spec survives, otherwise `' ORDER BY ' + ...` (note the leading
space in the source) — together with the order-spec list as mutated by the
call (every supplied spec gets its `escapedColumns` assigned, surviving or
not). `groupByArray` is accepted but never read by the source. -/
def generateOrderByClause (table : String) (orderByArray : List OrderSpec)
    (groupByArray : List String) (joinArray : Option (List (List Join))) :
    String × List OrderSpec :=
  let survivors := survivingSpecs table joinArray orderByArray
  (if survivors.length == 0 then ""
   else " ORDER BY " ++ jsJoin ", " (survivors.map orderTerm),
   orderByArray.map (setEscaped table joinArray))

/-- Written from the claim's words (C7), for comparison with the source's
`resolveColumn`: a reference with no namespace separator is qualified with
the base table; a namespaced reference is resolved by searching the join
groups in order (first match wins), qualifying with the matching alias and
the trailing segment; if no entry matches it is qualified with the base
table using the original full reference string; if no join groups were
supplied at all it is dropped. -/
def resolveColumnSpec (table : String) (joinGroups : Option (List (List Join)))
    (ref : String) : Option String :=
  let comps := jsSplit ref "__"
  if comps.length = 1 then
    some (escapeField table ++ "." ++ escapeField ref)
  else
    match joinGroups with
    | none => none
    | some groups =>
      let chain := jsJoin "__" comps.dropLast
      let trailing := comps.getLastD ""
      match findJoin groups chain with
      | some j => some (escapeField j.joinAlias ++ "." ++ escapeField trailing)
      | none => some (escapeField table ++ "." ++ escapeField ref)

/-! ### Helper lemmas -/

@[simp]
theorem releaseCount_nil : releaseCount [] = 0 := rfl

@[simp]
theorem releaseCount_cons (e : Ev) (t : List Ev) :
    releaseCount (e :: t) = (if e = Ev.release then 1 else 0) + releaseCount t := by
  simp [releaseCount, List.countP_cons, beq_iff_eq, Nat.add_comm]

@[simp]
theorem releaseCount_append (a b : List Ev) :
    releaseCount (a ++ b) = releaseCount a + releaseCount b := by
  simp [releaseCount, List.countP_append]

theorem releaseCount_cbEv (b : Bool) (e : Ev) (h : isCb e = true) :
    releaseCount (cbEv b e) = 0 := by
  cases b <;> cases e <;> simp_all [cbEv, releaseCount, isCb, List.countP_cons]

theorem runSeries_events_query (exec : Nat → Except Error Result) :
    ∀ (tasks : List Stmt) (n : Nat),
      ∀ e ∈ (runSeries exec tasks n).1, isQuery e = true := by
  intro tasks
  induction tasks with
  | nil => intro n e he; simp [runSeries] at he
  | cons a rest ih =>
    intro n e he
    obtain ⟨s, p⟩ := a
    rcases hx : exec n with er | r
    · simp [runSeries, hx] at he
      simp [he, isQuery]
    · rcases hr : runSeries exec rest (n + 1) with ⟨evs, n2, res⟩
      have hmem : e = Ev.query s p ∨ e ∈ evs := by
        rcases res with e2 | rs <;> simp [runSeries, hx, hr] at he <;> tauto
      rcases hmem with h1 | h1
      · simp [h1, isQuery]
      · have := ih (n + 1) e
        rw [hr] at this
        exact this h1

theorem releaseCount_of_queries (t : List Ev)
    (h : ∀ e ∈ t, isQuery e = true) : releaseCount t = 0 := by
  induction t with
  | nil => simp [releaseCount]
  | cons e t ih =>
    have he := h e (by simp)
    cases e <;> simp [isQuery] at he <;>
      simp [releaseCount, List.countP_cons] at ih ⊢ <;>
      exact ih (fun x hx => h x (by simp [hx]))

theorem filter_noncb_of_queries (t : List Ev)
    (h : ∀ e ∈ t, isQuery e = true) :
    t.filter (fun e => !(isCb e)) = t := by
  induction t with
  | nil => rfl
  | cons e t ih =>
    have he := h e (by simp)
    have ht := ih (fun x hx => h x (by simp [hx]))
    have hcb : isCb e = false := by
      cases e <;> simp [isQuery] at he <;> rfl
    simp [List.filter_cons, hcb, ht]

theorem releasedBeforeCb_append_queries (p t : List Ev)
    (h : ∀ e ∈ p, isQuery e = true) :
    releasedBeforeCb (p ++ t) = releasedBeforeCb t := by
  induction p with
  | nil => rfl
  | cons e p ih =>
    have he := h e (by simp)
    cases e <;> simp [isQuery] at he <;>
      simp [releasedBeforeCb, isCb,
        ih (fun x hx => h x (by simp [hx]))]

theorem execOf_map_ok (z : List (Stmt × Result))
    (tail : List (Except Error Result)) :
    ∀ i, i < z.length →
      execOf (z.map (fun x => Except.ok x.2) ++ tail) i =
        Except.ok ((z.getD i default).2) := by
  induction z with
  | nil => intro i hi; simp at hi
  | cons a z ih =>
    intro i hi
    cases i with
    | zero => simp [execOf]
    | succ j =>
      have := ih j (by simpa using Nat.lt_of_succ_lt_succ hi)
      simpa [execOf, List.getD_cons_succ] using this

theorem execOf_after (z : List (Stmt × Result))
    (tail : List (Except Error Result)) (j : Nat) :
    execOf (z.map (fun x => Except.ok x.2) ++ tail) (z.length + j) =
      execOf tail j := by
  induction z with
  | nil => simp [execOf]
  | cons a z ih =>
    simp only [List.map_cons, List.cons_append, List.length_cons, execOf] at ih ⊢
    rw [show z.length + 1 + j = (z.length + j) + 1 from by omega,
      List.getD_cons_succ]
    exact ih

theorem runSeries_ok (exec : Nat → Except Error Result) :
    ∀ (z : List (Stmt × Result)) (n : Nat),
      (∀ i, i < z.length → exec (n + i) = Except.ok ((z.getD i default).2)) →
      runSeries exec (z.map (fun x => x.1)) n =
        (z.map (fun x => Ev.query x.1.1 x.1.2), n + z.length,
         Except.ok (z.map (fun x => x.2))) := by
  intro z
  induction z with
  | nil => intro n _; simp [runSeries]
  | cons a z ih =>
    intro n h
    obtain ⟨⟨s, p⟩, r⟩ := a
    have h0 : exec n = Except.ok r := by simpa using h 0 (by simp)
    have h' : ∀ i, i < z.length → exec (n + 1 + i) =
        Except.ok ((z.getD i default).2) := by
      intro i hi
      rw [show n + 1 + i = n + (i + 1) from by omega]
      have := h (i + 1) (by simpa using Nat.succ_lt_succ hi)
      simpa [List.getD_cons_succ] using this
    simp only [List.map_cons, runSeries, h0, ih (n + 1) h']
    simp only [List.length_cons, Prod.mk.injEq]
    exact ⟨trivial, by omega, trivial⟩

theorem runSeries_fails (exec : Nat → Except Error Result) :
    ∀ (z : List (Stmt × Result)) (sf : Stmt) (rest : List Stmt) (n : Nat)
      (e : Error),
      (∀ i, i < z.length → exec (n + i) = Except.ok ((z.getD i default).2)) →
      exec (n + z.length) = Except.error e →
      runSeries exec (z.map (fun x => x.1) ++ sf :: rest) n =
        (z.map (fun x => Ev.query x.1.1 x.1.2) ++ [Ev.query sf.1 sf.2],
         n + z.length + 1, Except.error e) := by
  intro z
  induction z with
  | nil =>
    intro sf rest n e _ hf
    obtain ⟨s, p⟩ := sf
    simp at hf
    simp [runSeries, hf]
  | cons a z ih =>
    intro sf rest n e h hf
    obtain ⟨⟨s, p⟩, r⟩ := a
    have h0 : exec n = Except.ok r := by simpa using h 0 (by simp)
    have h' : ∀ i, i < z.length → exec (n + 1 + i) =
        Except.ok ((z.getD i default).2) := by
      intro i hi
      rw [show n + 1 + i = n + (i + 1) from by omega]
      have := h (i + 1) (by simpa using Nat.succ_lt_succ hi)
      simpa [List.getD_cons_succ] using this
    have hf' : exec (n + 1 + z.length) = Except.error e := by
      rw [show n + 1 + z.length = n + (z.length + 1) from by omega]
      simpa using hf
    simp only [List.cons_append, List.map_cons, runSeries, h0, List.append_eq]
    rw [ih sf rest (n + 1) e h' hf']
    show (Ev.query s p ::
        (List.map (fun x => Ev.query x.1.1 x.1.2) z ++ [Ev.query sf.1 sf.2]),
      n + 1 + z.length + 1, Except.error e) = _
    simp only [List.length_cons, Prod.mk.injEq]
    exact ⟨trivial, by omega, trivial⟩

theorem runSeries_execOf_ok (z : List (Stmt × Result))
    (tail : List (Except Error Result)) :
    runSeries (execOf (z.map (fun x => Except.ok x.2) ++ tail))
        (z.map (fun x => x.1)) 0 =
      (z.map (fun x => Ev.query x.1.1 x.1.2), z.length,
       Except.ok (z.map (fun x => x.2))) := by
  have hok : ∀ i, i < z.length →
      execOf (z.map (fun x => Except.ok x.2) ++ tail) (0 + i) =
        Except.ok ((z.getD i default).2) := by
    intro i hi
    simpa using execOf_map_ok z tail i hi
  simpa using runSeries_ok _ z 0 hok

theorem runSeries_execOf_fails (z : List (Stmt × Result)) (sf : Stmt)
    (rest : List Stmt) (e : Error) (tail : List (Except Error Result)) :
    runSeries (execOf (z.map (fun x => Except.ok x.2) ++ Except.error e :: tail))
        (z.map (fun x => x.1) ++ sf :: rest) 0 =
      (z.map (fun x => Ev.query x.1.1 x.1.2) ++ [Ev.query sf.1 sf.2],
       z.length + 1, Except.error e) := by
  have hok : ∀ i, i < z.length →
      execOf (z.map (fun x => Except.ok x.2) ++ Except.error e :: tail) (0 + i) =
        Except.ok ((z.getD i default).2) := by
    intro i hi
    simpa using execOf_map_ok z (Except.error e :: tail) i hi
  have hf : execOf (z.map (fun x => Except.ok x.2) ++ Except.error e :: tail)
      (0 + z.length) = Except.error e := by
    have := execOf_after z (Except.error e :: tail) 0
    simpa [execOf] using this
  simpa using runSeries_fails _ z sf rest 0 e hok hf

theorem transaction_connectFail (ce : Error) (ex : Nat → Except Error Result)
    (input : TxInput) (b : Bool) (h : txLength input ≠ 0) :
    transaction ⟨false, some ce, ex⟩ input b =
      Except.ok (Ev.connect :: (cbEv b (Ev.cbErr ce) ++ [Ev.release])) := by
  simp [transaction, h]

theorem transaction_stmtFail (rB : Result) (z : List (Stmt × Result)) (sf : Stmt)
    (rest : List Stmt) (e : Error) (rb : Except Error Result) (b : Bool) :
    transaction
        ⟨false, none,
          execOf (Except.ok rB :: z.map (fun x => Except.ok x.2) ++
            [Except.error e, rb])⟩
        (TxInput.arr (z.map (fun x => x.1) ++ sf :: rest)) b =
      Except.ok (Ev.connect :: Ev.query "BEGIN" none ::
        (z.map (fun x => Ev.query x.1.1 x.1.2) ++
          (Ev.query sf.1 sf.2 :: Ev.query "ROLLBACK" none ::
            ((match rb with
              | .error er => cbEv b (Ev.cbErr er)
              | .ok _ => cbEv b (Ev.cbErr e)) ++ [Ev.release])))) := by
  have hlen : txLength (TxInput.arr (z.map (fun x => x.1) ++ sf :: rest)) ≠ 0 := by
    simp [txLength]
  have hser := runSeries_execOf_fails
    ((("BEGIN", (none : Option (List String))), rB) :: z) sf rest e [rb]
  simp only [List.map_cons, List.cons_append, List.length_cons] at hser
  have hrb := execOf_after ((("BEGIN", (none : Option (List String))), rB) :: z)
    [Except.error e, rb] 1
  simp only [List.map_cons, List.cons_append, List.length_cons] at hrb
  rcases rb with er | rr <;>
    (simp [transaction, hlen, txPrepared, txnFinish, hser]
     rw [hrb]
     simp [execOf])

theorem transaction_allOk (rB : Result) (z0 : Stmt × Result)
    (zs : List (Stmt × Result)) (cr : Except Error Result) (b : Bool) :
    transaction
        ⟨false, none,
          execOf (Except.ok rB :: (z0 :: zs).map (fun x => Except.ok x.2) ++ [cr])⟩
        (TxInput.arr ((z0 :: zs).map (fun x => x.1))) b =
      Except.ok (Ev.connect :: Ev.query "BEGIN" none ::
        ((z0 :: zs).map (fun x => Ev.query x.1.1 x.1.2) ++
          (Ev.query "COMMIT" none ::
            (match cr with
             | .error ce => Ev.release :: cbEv b (Ev.cbErr ce)
             | .ok _ => Ev.release ::
                 cbEv b (Ev.cbOk (rB :: (z0 :: zs).map (fun x => x.2))))))) := by
  have hser := runSeries_execOf_ok
    ((("BEGIN", (none : Option (List String))), rB) :: z0 :: zs) [cr]
  simp only [List.map_cons, List.cons_append, List.length_cons] at hser
  have hcr := execOf_after ((("BEGIN", (none : Option (List String))), rB) :: z0 :: zs)
    [cr] 0
  simp only [List.map_cons, List.cons_append, List.length_cons, Nat.add_zero] at hcr
  rcases cr with ce | rc <;>
    (simp [transaction, txLength, txPrepared, txnFinish, hser]
     rw [hcr]
     simp [execOf])

/-! ### Claim theorems -/

/-- C1: for every invocation of the query operation or the batch transaction
operation that passes validation and finds the pool below capacity (so that a
connection is requested from the pool), the connection's release action
(`complete()`) is invoked exactly once on every code path — success,
connection-acquisition failure, statement failure, commit failure and
rollback failure alike. -/
theorem query_transaction_release_once
    (ce : Option Error) (ex : Nat → Except Error Result) :
    (∀ q params, ∃ t, query ⟨false, ce, ex⟩ true true true q params =
        Except.ok t ∧ releaseCount t = 1) ∧
    (∀ s rest b, ∃ t,
        transaction ⟨false, ce, ex⟩ (TxInput.arr (s :: rest)) b =
          Except.ok t ∧ releaseCount t = 1) := by
  constructor
  · intro q params
    rcases ce with _ | e
    · rcases hx : ex 0 with er | r
      · refine ⟨[Ev.connect, Ev.query q (some params), Ev.release, Ev.cbErr er],
          ?_, by simp⟩
        simp [query, queryClient, hx]
      · refine ⟨[Ev.connect, Ev.query q (some params), Ev.release, Ev.cbOkOne r],
          ?_, by simp⟩
        simp [query, queryClient, hx]
    · exact ⟨[Ev.connect, Ev.release, Ev.cbErr e], by simp [query], by simp⟩
  · intro s rest b
    have hlen : txLength (TxInput.arr (s :: rest)) ≠ 0 := by simp [txLength]
    rcases ce with _ | e
    · rcases hr : runSeries ex (("BEGIN", none) :: s :: rest) 0 with ⟨evs, n, res⟩
      have hq := runSeries_events_query ex (("BEGIN", none) :: s :: rest) 0
      rw [hr] at hq
      have h0 : releaseCount evs = 0 := releaseCount_of_queries evs hq
      refine ⟨Ev.connect :: (evs ++ txnFinish ⟨false, none, ex⟩ b n res), ?_, ?_⟩
      · simp [transaction, hlen, txPrepared, hr]
      · have hfin : releaseCount (txnFinish ⟨false, none, ex⟩ b n res) = 1 := by
          rcases res with e2 | rs
          · rcases hx : ex n with er | r <;>
              cases b <;> simp [txnFinish, hx, cbEv]
          · rcases hx : ex n with er | r <;>
              cases b <;> simp [txnFinish, hx, cbEv]
        simp [h0, hfin]
    · refine ⟨Ev.connect :: (cbEv b (Ev.cbErr e) ++ [Ev.release]), ?_, ?_⟩
      · exact transaction_connectFail e ex _ b hlen
      · cases b <;> simp [cbEv]

/-- C5: whenever the pool reports at-capacity, each of the query operation,
the batch transaction operation and the begin-transaction operation fails via
its callback with the pool-full error, and never attempts to acquire a
connection (no `connect` event occurs in the trace). -/
theorem pool_full_no_acquisition
    (ce : Option Error) (ex : Nat → Except Error Result) :
    (∀ q params,
        query ⟨true, ce, ex⟩ true true true q params =
          Except.ok [Ev.cbErr "Pool is full"] ∧
        Ev.connect ∉ ([Ev.cbErr "Pool is full"] : List Ev)) ∧
    (createTransaction ⟨true, ce, ex⟩ = [Ev.cbErr "Pool is full"] ∧
        Ev.connect ∉ ([Ev.cbErr "Pool is full"] : List Ev)) ∧
    (∀ s rest b,
        transaction ⟨true, ce, ex⟩ (TxInput.arr (s :: rest)) b =
          Except.ok (cbEv b (Ev.cbErr "Pool is full")) ∧
        Ev.connect ∉ cbEv b (Ev.cbErr "Pool is full")) := by
  refine ⟨fun q params => ⟨?_, by decide⟩, ⟨?_, by decide⟩, fun s rest b => ⟨?_, ?_⟩⟩
  · simp [query]
  · simp [createTransaction]
  · have hlen : txLength (TxInput.arr (s :: rest)) ≠ 0 := by simp [txLength]
    simp [transaction, hlen]
  · cases b <;> simp [cbEv]

/-- C10: calling the batch transaction operation with a non-empty statement
list and a non-callable completion handler does not fail, synchronously or
via callback: a no-op handler is substituted (the run's trace is the
callback-supplied run's trace with the callback events removed), and the
batch still proceeds (a connection is acquired whenever the pool admits). -/
theorem transaction_noncallable_callback_noop
    (env : Env) (s : Stmt) (rest : List Stmt) :
    (∃ t, transaction env (TxInput.arr (s :: rest)) true = Except.ok t ∧
        transaction env (TxInput.arr (s :: rest)) false =
          Except.ok (t.filter (fun e => !(isCb e)))) ∧
    (∀ ce ex, ∃ t2,
        transaction ⟨false, ce, ex⟩ (TxInput.arr (s :: rest)) false =
          Except.ok t2 ∧ Ev.connect ∈ t2) := by
  have hlen : txLength (TxInput.arr (s :: rest)) ≠ 0 := by simp [txLength]
  constructor
  · obtain ⟨pf, ce, ex⟩ := env
    cases pf
    · rcases ce with _ | e
      · rcases hr : runSeries ex (("BEGIN", none) :: s :: rest) 0 with ⟨evs, n, res⟩
        have hq := runSeries_events_query ex (("BEGIN", none) :: s :: rest) 0
        rw [hr] at hq
        have hevs : evs.filter (fun e => !(isCb e)) = evs :=
          filter_noncb_of_queries evs hq
        refine ⟨Ev.connect :: (evs ++ txnFinish ⟨false, none, ex⟩ true n res),
          by simp [transaction, hlen, txPrepared, hr], ?_⟩
        have hfin : (txnFinish ⟨false, none, ex⟩ true n res).filter
              (fun e => !(isCb e)) = txnFinish ⟨false, none, ex⟩ false n res := by
          rcases res with e2 | rs <;>
            rcases hx : ex n with er | r <;>
              simp [txnFinish, hx, cbEv, isCb]
        simp [transaction, hlen, txPrepared, hr, List.filter_append,
          List.filter_cons, hevs, hfin]
      · refine ⟨Ev.connect :: (cbEv true (Ev.cbErr e) ++ [Ev.release]),
          transaction_connectFail e ex _ true hlen, ?_⟩
        have := transaction_connectFail e ex (TxInput.arr (s :: rest)) false hlen
        simp [this, cbEv, isCb]
    · refine ⟨cbEv true (Ev.cbErr "Pool is full"), by simp [transaction, hlen], ?_⟩
      simp [transaction, hlen, cbEv, isCb]
  · intro ce ex
    rcases ce with _ | e
    · rcases hr : runSeries ex (("BEGIN", none) :: s :: rest) 0 with ⟨evs, n, res⟩
      refine ⟨Ev.connect :: (evs ++ txnFinish ⟨false, none, ex⟩ false n res),
        by simp [transaction, hlen, txPrepared, hr], by simp⟩
    · exact ⟨Ev.connect :: (cbEv false (Ev.cbErr e) ++ [Ev.release]),
        transaction_connectFail e ex _ false hlen, by simp⟩

/-- C3: in batch mode, when a statement fails, ROLLBACK is issued on the
connection; if the rollback succeeds the callback receives the original
statement error, and if the rollback itself fails the callback receives the
rollback error alone — the original statement error is not attached to it. -/
theorem tx_rollback_error_reporting :
    (∀ (rB : Result) (z : List (Stmt × Result)) (sf : Stmt) (rest : List Stmt)
        (e : Error) (rr : Result),
      transaction ⟨false, none,
          execOf (Except.ok rB :: z.map (fun x => Except.ok x.2) ++
            [Except.error e, Except.ok rr])⟩
        (TxInput.arr (z.map (fun x => x.1) ++ sf :: rest)) true =
        Except.ok (Ev.connect :: Ev.query "BEGIN" none ::
          (z.map (fun x => Ev.query x.1.1 x.1.2) ++
            (Ev.query sf.1 sf.2 :: Ev.query "ROLLBACK" none ::
              [Ev.cbErr e, Ev.release])))) ∧
    (∀ (rB : Result) (z : List (Stmt × Result)) (sf : Stmt) (rest : List Stmt)
        (e er : Error),
      transaction ⟨false, none,
          execOf (Except.ok rB :: z.map (fun x => Except.ok x.2) ++
            [Except.error e, Except.error er])⟩
        (TxInput.arr (z.map (fun x => x.1) ++ sf :: rest)) true =
        Except.ok (Ev.connect :: Ev.query "BEGIN" none ::
          (z.map (fun x => Ev.query x.1.1 x.1.2) ++
            (Ev.query sf.1 sf.2 :: Ev.query "ROLLBACK" none ::
              [Ev.cbErr er, Ev.release])))) := by
  constructor
  · intro rB z sf rest e rr
    have h := transaction_stmtFail rB z sf rest e (Except.ok rr) true
    simpa [cbEv] using h
  · intro rB z sf rest e er
    have h := transaction_stmtFail rB z sf rest e (Except.error er) true
    simpa [cbEv] using h

/-- C2 counterexample: for the batch [S1, S2] with both statements (and
COMMIT) succeeding, the callback receives the BEGIN step's result in front of
the statement results — `["rB", "r1", "r2"]`, not `["r1", "r2"]` as the claim
states. -/
theorem tx_results_include_begin_cex :
    transaction ⟨false, none,
        execOf [Except.ok "rB", Except.ok "r1", Except.ok "r2", Except.ok "rC"]⟩
      (TxInput.arr [("S1", some []), ("S2", some [])]) true =
      Except.ok [Ev.connect, Ev.query "BEGIN" none, Ev.query "S1" (some []),
        Ev.query "S2" (some []), Ev.query "COMMIT" none, Ev.release,
        Ev.cbOk ["rB", "r1", "r2"]] ∧
    Ev.cbOk ["r1", "r2"] ∉
      ([Ev.connect, Ev.query "BEGIN" none, Ev.query "S1" (some []),
        Ev.query "S2" (some []), Ev.query "COMMIT" none, Ev.release,
        Ev.cbOk ["rB", "r1", "r2"]] : List Ev) :=
  ⟨rfl, by decide⟩

/-- C2 (amended): when every statement of the batch succeeds and COMMIT
succeeds, COMMIT is issued exactly once (provided no supplied statement is
itself the literal COMMIT statement) and the callback receives
`(null, results)` where `results` is the BEGIN step's result followed by the
results of the supplied statements in execution order. -/
theorem tx_success_results_amended (rB rC : Result) (z0 : Stmt × Result)
    (zs : List (Stmt × Result)) :
    transaction ⟨false, none,
        execOf (Except.ok rB :: (z0 :: zs).map (fun x => Except.ok x.2) ++
          [Except.ok rC])⟩
      (TxInput.arr ((z0 :: zs).map (fun x => x.1))) true =
      Except.ok (Ev.connect :: Ev.query "BEGIN" none ::
        ((z0 :: zs).map (fun x => Ev.query x.1.1 x.1.2) ++
          [Ev.query "COMMIT" none, Ev.release,
           Ev.cbOk (rB :: (z0 :: zs).map (fun x => x.2))])) ∧
    ((∀ x ∈ z0 :: zs, x.1 ≠ ("COMMIT", (none : Option (List String)))) →
      List.count (Ev.query "COMMIT" none)
        (Ev.connect :: Ev.query "BEGIN" none ::
          ((z0 :: zs).map (fun x => Ev.query x.1.1 x.1.2) ++
            [Ev.query "COMMIT" none, Ev.release,
             Ev.cbOk (rB :: (z0 :: zs).map (fun x => x.2))])) = 1) := by
  constructor
  · have h := transaction_allOk rB z0 zs (Except.ok rC) true
    simpa [cbEv] using h
  · intro hne
    have hnot : Ev.query "COMMIT" none ∉
        (z0 :: zs).map (fun x => Ev.query x.1.1 x.1.2) := by
      intro hmem
      rcases List.mem_map.mp hmem with ⟨x, hx, hq⟩
      have h1 : x.1.1 = "COMMIT" ∧ x.1.2 = none := by
        simpa [Ev.query.injEq] using hq
      exact hne x hx (Prod.ext_iff.mpr ⟨h1.1, h1.2⟩)
    have hnot2 : Ev.query "COMMIT" none ∉
        zs.map (fun x => Ev.query x.1.1 x.1.2) := by
      intro hm
      exact hnot (by simp [hm])
    have hz0 : ¬(z0.1.1 = "COMMIT" ∧ z0.1.2 = none) := by
      intro hand
      exact hne z0 (by simp) (Prod.ext_iff.mpr ⟨hand.1, hand.2⟩)
    simp [List.count_cons, List.count_append, List.count_eq_zero.mpr hnot2, hz0]

/-- C2 witness: the amended theorem applied to the concrete one-statement
batch `[("S1", [])]` with results rB/r1/rC. -/
theorem tx_success_results_witness :
    transaction ⟨false, none,
        execOf [Except.ok "rB", Except.ok "r1", Except.ok "rC"]⟩
      (TxInput.arr [("S1", some [])]) true =
      Except.ok [Ev.connect, Ev.query "BEGIN" none, Ev.query "S1" (some []),
        Ev.query "COMMIT" none, Ev.release, Ev.cbOk ["rB", "r1"]] ∧
    List.count (Ev.query "COMMIT" none)
      [Ev.connect, Ev.query "BEGIN" none, Ev.query "S1" (some []),
       Ev.query "COMMIT" none, Ev.release, Ev.cbOk ["rB", "r1"]] = 1 := by
  have h := tx_success_results_amended "rB" "rC" (("S1", some []), "r1") []
  exact ⟨h.1, h.2 (by decide)⟩

/-- C6: for a batch [S1, S2, S3] where S2 fails, the trace is exactly BEGIN,
S1, S2, ROLLBACK (with the rollback-dependent error reported): S1 and S2
execute in order and S3 never executes. -/
theorem tx_stops_at_first_failure (s1 s2 s3 : Stmt) (rB r1 : Result)
    (e : Error) (rb : Except Error Result) :
    (transaction ⟨false, none,
        execOf [Except.ok rB, Except.ok r1, Except.error e, rb]⟩
      (TxInput.arr [s1, s2, s3]) true =
      Except.ok (Ev.connect :: Ev.query "BEGIN" none :: Ev.query s1.1 s1.2 ::
        Ev.query s2.1 s2.2 :: Ev.query "ROLLBACK" none ::
        ((match rb with
          | .error er => [Ev.cbErr er]
          | .ok _ => [Ev.cbErr e]) ++ [Ev.release]))) ∧
    (Ev.query s3.1 s3.2 ∉ ([Ev.query "BEGIN" none, Ev.query s1.1 s1.2,
        Ev.query s2.1 s2.2, Ev.query "ROLLBACK" none] : List Ev) →
      Ev.query s3.1 s3.2 ∉ (Ev.connect :: Ev.query "BEGIN" none ::
        Ev.query s1.1 s1.2 :: Ev.query s2.1 s2.2 :: Ev.query "ROLLBACK" none ::
        ((match rb with
          | .error er => [Ev.cbErr er]
          | .ok _ => [Ev.cbErr e]) ++ [Ev.release]))) := by
  constructor
  · have h := transaction_stmtFail rB [(s1, r1)] s2 [s3] e rb true
    rcases rb with er | rr <;> simpa [cbEv] using h
  · intro hni hmem
    rcases rb with er | rr <;> (simp_all; tauto)

/-- C6 witness: the theorem applied to the concrete batch [S1, S2, S3] with
S2 failing with error E2 and the rollback succeeding. -/
theorem tx_stops_at_first_failure_witness :
    transaction ⟨false, none,
        execOf [Except.ok "rB", Except.ok "r1", Except.error "E2",
          Except.ok "rr"]⟩
      (TxInput.arr [("S1", some []), ("S2", some []), ("S3", some [])]) true =
      Except.ok [Ev.connect, Ev.query "BEGIN" none, Ev.query "S1" (some []),
        Ev.query "S2" (some []), Ev.query "ROLLBACK" none, Ev.cbErr "E2",
        Ev.release] ∧
    Ev.query "S3" (some []) ∉
      ([Ev.connect, Ev.query "BEGIN" none, Ev.query "S1" (some []),
        Ev.query "S2" (some []), Ev.query "ROLLBACK" none, Ev.cbErr "E2",
        Ev.release] : List Ev) := by
  have h := tx_stops_at_first_failure ("S1", some []) ("S2", some [])
    ("S3", some []) "rB" "r1" "E2" (Except.ok "rr")
  exact ⟨h.1, h.2 (by decide)⟩

@[simp]
theorem releasedBeforeCb_cons (e : Ev) (t : List Ev) :
    releasedBeforeCb (e :: t) =
      if e = Ev.release then true
      else if isCb e then false else releasedBeforeCb t := by
  simp [releasedBeforeCb, beq_iff_eq]

theorem releasedBeforeCb_qmap (z : List (Stmt × Result)) (t : List Ev) :
    releasedBeforeCb (z.map (fun x => Ev.query x.1.1 x.1.2) ++ t) =
      releasedBeforeCb t := by
  refine releasedBeforeCb_append_queries _ _ ?_
  intro e he
  rcases List.mem_map.mp he with ⟨x, _, rfl⟩
  simp

/-- C4 counterexample: on a connection-acquisition failure the adapter
invokes the caller's callback *before* releasing (postgres8.js lines
121-124: `callback(err); return complete();`), so the held connection is not
released before the callback fires, contradicting the claim. -/
theorem tx_release_after_callback_cex :
    transaction ⟨false, some "boom", execOf []⟩
      (TxInput.arr [("S1", some [])]) true =
      Except.ok [Ev.connect, Ev.cbErr "boom", Ev.release] ∧
    releasedBeforeCb [Ev.connect, Ev.cbErr "boom", Ev.release] = false :=
  ⟨rfl, by decide⟩

/-- C4 (amended): only the commit paths release the connection before the
callback fires; on connection-acquisition failure and on both rollback paths
(statement failure with successful rollback, and rollback failure) the
callback fires first and the release follows immediately afterwards. The
release still occurs exactly once on every path (C1's theorem). -/
theorem tx_release_callback_order :
    (∀ (rB : Result) (z0 : Stmt × Result) (zs : List (Stmt × Result)) (ce : Error),
      ∃ t, transaction ⟨false, none,
            execOf (Except.ok rB :: (z0 :: zs).map (fun x => Except.ok x.2) ++
              [Except.error ce])⟩
          (TxInput.arr ((z0 :: zs).map (fun x => x.1))) true = Except.ok t ∧
        releasedBeforeCb t = true) ∧
    (∀ (e : Error) (ex : Nat → Except Error Result) (s : Stmt) (rest : List Stmt),
      ∃ t, transaction ⟨false, some e, ex⟩ (TxInput.arr (s :: rest)) true =
          Except.ok t ∧ releasedBeforeCb t = false) ∧
    (∀ (rB : Result) (z : List (Stmt × Result)) (sf : Stmt) (rest : List Stmt)
        (e : Error) (rr : Result),
      ∃ t, transaction ⟨false, none,
            execOf (Except.ok rB :: z.map (fun x => Except.ok x.2) ++
              [Except.error e, Except.ok rr])⟩
          (TxInput.arr (z.map (fun x => x.1) ++ sf :: rest)) true =
          Except.ok t ∧ releasedBeforeCb t = false) ∧
    (∀ (rB : Result) (z : List (Stmt × Result)) (sf : Stmt) (rest : List Stmt)
        (e er : Error),
      ∃ t, transaction ⟨false, none,
            execOf (Except.ok rB :: z.map (fun x => Except.ok x.2) ++
              [Except.error e, Except.error er])⟩
          (TxInput.arr (z.map (fun x => x.1) ++ sf :: rest)) true =
          Except.ok t ∧ releasedBeforeCb t = false) := by
  refine ⟨?_, ?_, ?_, ?_⟩
  · intro rB z0 zs ce
    refine ⟨Ev.connect :: Ev.query "BEGIN" none ::
        ((z0 :: zs).map (fun x => Ev.query x.1.1 x.1.2) ++
          (Ev.query "COMMIT" none :: Ev.release :: cbEv true (Ev.cbErr ce))),
      transaction_allOk rB z0 zs (Except.error ce) true, ?_⟩
    simp [releasedBeforeCb_qmap, cbEv]
  · intro e ex s rest
    have hlen : txLength (TxInput.arr (s :: rest)) ≠ 0 := by simp [txLength]
    exact ⟨Ev.connect :: (cbEv true (Ev.cbErr e) ++ [Ev.release]),
      transaction_connectFail e ex _ true hlen, by simp [cbEv]⟩
  · intro rB z sf rest e rr
    refine ⟨Ev.connect :: Ev.query "BEGIN" none ::
        (z.map (fun x => Ev.query x.1.1 x.1.2) ++
          (Ev.query sf.1 sf.2 :: Ev.query "ROLLBACK" none ::
            (cbEv true (Ev.cbErr e) ++ [Ev.release]))),
      transaction_stmtFail rB z sf rest e (Except.ok rr) true, ?_⟩
    simp [releasedBeforeCb_qmap, cbEv]
  · intro rB z sf rest e er
    refine ⟨Ev.connect :: Ev.query "BEGIN" none ::
        (z.map (fun x => Ev.query x.1.1 x.1.2) ++
          (Ev.query sf.1 sf.2 :: Ev.query "ROLLBACK" none ::
            (cbEv true (Ev.cbErr er) ++ [Ev.release]))),
      transaction_stmtFail rB z sf rest e (Except.error er) true, ?_⟩
    simp [releasedBeforeCb_qmap, cbEv]


theorem setEscaped_idem (table : String) (jg : Option (List (List Join)))
    (v : OrderSpec) :
    setEscaped table jg (setEscaped table jg v) = setEscaped table jg v := rfl

theorem survivingSpecs_filter (table : String) (jg : Option (List (List Join)))
    (o : List OrderSpec) :
    survivingSpecs table jg
        (o.filter (fun v => !(escapeColumns table jg v).isEmpty)) =
      survivingSpecs table jg o := by
  have key : ∀ v : OrderSpec,
      ((((setEscaped table jg v).escapedColumns.getD []).length != 0)) =
        !(escapeColumns table jg v).isEmpty := by
    intro v
    cases h : escapeColumns table jg v <;> simp [setEscaped, h]
  induction o with
  | nil => rfl
  | cons v o ih =>
    simp only [survivingSpecs] at ih ⊢
    cases hq : (escapeColumns table jg v).isEmpty <;>
      simp [List.filter_cons, List.map_cons, hq, key v, ih]

/-- C7: the per-reference resolution of the order-by builder coincides with
the claim's description (`resolveColumnSpec`, written from the claim's
words); `findJoin` (groups searched in order, first match wins) only returns
entries whose alias equals the searched chain; and order specs whose
resolved-column list is empty are dropped — filtering them away beforehand
leaves the fragment unchanged. -/
theorem resolveColumn_refines_claim :
    (∀ table joinGroups ref,
        resolveColumn table joinGroups ref =
          resolveColumnSpec table joinGroups ref) ∧
    (∀ groups chain j, findJoin groups chain = some j → j.joinAlias = chain) ∧
    (∀ table o g jg,
        (generateOrderByClause table o g jg).1 =
          (generateOrderByClause table
            (o.filter (fun v => !(escapeColumns table jg v).isEmpty)) g jg).1) := by
  refine ⟨?_, ?_, ?_⟩
  · intro table jg ref
    cases jg <;> rfl
  · intro groups chain
    induction groups with
    | nil => intro j h; simp [findJoin] at h
    | cons g rest ih =>
      intro j h
      rcases hf : g.find? (fun j => j.joinAlias == chain) with _ | j2
      · simp only [findJoin, hf] at h
        exact ih j h
      · have hp := List.find?_some hf
        simp only [findJoin, hf, Option.some.injEq] at h
        subst h
        simpa using hp
  · intro table o g jg
    simp only [generateOrderByClause]
    rw [survivingSpecs_filter]

/-- C7 witness: the refinement instantiated at a concrete namespaced
reference, and the alias-equality fact discharged at a concrete join table
where `findJoin` finds the entry. -/
theorem resolveColumn_refines_claim_witness :
    resolveColumn "users" (some [[⟨"profile"⟩]]) "profile__bio" =
      resolveColumnSpec "users" (some [[⟨"profile"⟩]]) "profile__bio" ∧
    (⟨"profile"⟩ : Join).joinAlias = "profile" :=
  ⟨resolveColumn_refines_claim.1 "users" (some [[⟨"profile"⟩]]) "profile__bio",
   resolveColumn_refines_claim.2.1 [[⟨"profile"⟩]] "profile" ⟨"profile"⟩
     (by decide)⟩

/-- C8 counterexample: on the spec's example the builder returns
`' ORDER BY "users"."name" ASC'` with a leading space, not the claimed
`'ORDER BY "users"."name" ASC'`. -/
theorem orderBy_leading_space_cex :
    (generateOrderByClause "users"
        [⟨["name"], "ASC", none, none⟩] [] none).1 =
      " ORDER BY \"users\".\"name\" ASC" ∧
    (generateOrderByClause "users"
        [⟨["name"], "ASC", none, none⟩] [] none).1 ≠
      "ORDER BY \"users\".\"name\" ASC" :=
  ⟨rfl, by decide⟩

/-- C8 (amended): the order-by builder returns the empty string when no
order specs survive resolution, and otherwise returns the comma-joined
surviving terms prefixed with `' ORDER BY '` — including a leading space; on
the spec's example the result is exactly `' ORDER BY "users"."name" ASC'`. -/
theorem orderBy_fragment_shape :
    (∀ table o g jg, survivingSpecs table jg o = [] →
        (generateOrderByClause table o g jg).1 = "") ∧
    (∀ table o g jg, survivingSpecs table jg o ≠ [] →
        (generateOrderByClause table o g jg).1 =
          " ORDER BY " ++
            jsJoin ", " ((survivingSpecs table jg o).map orderTerm)) ∧
    (generateOrderByClause "users" [⟨["name"], "ASC", none, none⟩] [] none).1 =
      " ORDER BY \"users\".\"name\" ASC" := by
  refine ⟨?_, ?_, rfl⟩
  · intro table o g jg h
    simp [generateOrderByClause, h]
  · intro table o g jg h
    simp [generateOrderByClause, beq_iff_eq, List.length_eq_zero, h]

/-- C8 witness: the amended theorem applied at an input whose only spec
resolves to no columns (empty fragment), and at the spec's example. -/
theorem orderBy_fragment_shape_witness :
    (generateOrderByClause "users"
        [⟨["profile__bio"], "DESC", none, none⟩] [] none).1 = "" ∧
    (generateOrderByClause "users" [⟨["name"], "ASC", none, none⟩] [] none).1 =
      " ORDER BY " ++ jsJoin ", "
        ((survivingSpecs "users" none
          [⟨["name"], "ASC", none, none⟩]).map orderTerm) :=
  ⟨orderBy_fragment_shape.1 "users"
      [⟨["profile__bio"], "DESC", none, none⟩] [] none rfl,
   orderBy_fragment_shape.2.1 "users"
      [⟨["name"], "ASC", none, none⟩] [] none (fun h => nomatch h)⟩

/-- C9 counterexample: the builder mutates its order-spec inputs — after the
call the spec's `escapedColumns` has been assigned (`some [...]`), whereas
the supplied spec had none — so the inputs are not left unchanged. -/
theorem orderBy_mutates_cex :
    ((generateOrderByClause "users"
        [⟨["name"], "ASC", none, none⟩] [] none).2.map
          (fun v => v.escapedColumns)) ≠
      ([⟨["name"], "ASC", none, none⟩] : List OrderSpec).map
        (fun v => v.escapedColumns) := by
  decide

/-- C9 (amended): the order-by builder is deterministic — rerunning it on
the specs mutated by a previous run (with any group-by list) yields the same
fragment string — and its only mutation is assigning `escapedColumns` on
every supplied spec: column names and directions are untouched. It is not
side-effect-free. -/
theorem orderBy_deterministic_but_mutating :
    (∀ table o g g2 jg,
        (generateOrderByClause table
            (generateOrderByClause table o g jg).2 g2 jg).1 =
          (generateOrderByClause table o g jg).1) ∧
    (∀ table o g jg,
        (generateOrderByClause table o g jg).2 = o.map (setEscaped table jg) ∧
        (generateOrderByClause table o g jg).2.map (fun v => v.columnNames) =
          o.map (fun v => v.columnNames) ∧
        (generateOrderByClause table o g jg).2.map (fun v => v.direction) =
          o.map (fun v => v.direction)) := by
  constructor
  · intro table o g g2 jg
    have hmm : (o.map (setEscaped table jg)).map (setEscaped table jg) =
        o.map (setEscaped table jg) := by
      rw [List.map_map]
      refine List.map_congr_left ?_
      intro v _
      exact setEscaped_idem table jg v
    simp [generateOrderByClause, survivingSpecs, hmm]
  · intro table o g jg
    refine ⟨rfl, ?_, ?_⟩ <;>
      simp [generateOrderByClause, List.map_map, Function.comp, setEscaped]

end Nodal
